import Mathlib

/-
Shallow embedding of the Emitron typed event emitter (src/index.ts).

Handlers are JS function references; we model a reference as a natural
number id.  A JS Set of handlers is an insertion-ordered duplicate-free
list: add appends when absent, delete filters by identity.  The runtime
behavior of a handler body (registry mutations it performs during its
invocation, and whether it throws) is supplied by an environment mapping
handler ids to behaviors.  Emission is a function returning the new
registry state, the trace of handler invocations (recording the exact
positional argument list each call receives), and the thrown error, if
any.  Note on argument shapes: `emit(type, ...args)` binds `args` to the
rest-parameter array, so the runtime test `Array.isArray(args)` is
always true and every keyed handler is called with the spread `...args`;
wildcard handlers are called with `(type, args)`, the rest array itself.
-/

namespace Emitron

/-- Event keys (`keyof Events`; strings in the reference tests). -/
abbrev Key := String

/-- Handler identity: JS function references, modelled as ids. -/
abbrev HId := Nat

/-- Emitted atomic values: a primitive, or an array payload (the
sequence shape of the source type `unknown[]`). -/
inductive Val where
  | prim (s : String)
  | arr (xs : List String)
deriving DecidableEq

/-- JS `Set.add`: insertion-ordered, deduplicated by reference. -/
def osetAdd (h : HId) (s : List HId) : List HId :=
  if h ∈ s then s else s ++ [h]

/-- JS `Set.delete`. -/
def osetDelete (h : HId) (s : List HId) : List HId :=
  s.filter (fun x => x != h)

/-- `EventHandlerMap`: the per-key pair of handler sets
(`handlers` persistent, `onceHandlers` transient). -/
structure Bucket where
  handlers : List HId
  onceHandlers : List HId
deriving DecidableEq

def Bucket.empty : Bucket := ⟨[], []⟩

/-- The private fields of an `Emitron` instance: the key-to-bucket map
(insertion ordered, as a JS `Map`), the wildcard handler set, and the
advisory `maxListeners` value. -/
structure EmitronState where
  events : List (Key × Bucket)
  wildcardHandlers : List HId
  maxListeners : Int
deriving DecidableEq

def emptyState : EmitronState := ⟨[], [], 10⟩

/-- JS `Map.get`. -/
def mapGet : List (Key × Bucket) → Key → Option Bucket
  | [], _ => none
  | (k1, b) :: rest, k => if k1 = k then some b else mapGet rest k

/-- JS `Map.set`: replace in place when the key exists, else append. -/
def mapSet : List (Key × Bucket) → Key → Bucket → List (Key × Bucket)
  | [], k, b => [(k, b)]
  | (k1, b1) :: rest, k, b =>
    if k1 = k then (k, b) :: rest else (k1, b1) :: mapSet rest k b

/-- The bucket a key currently maps to (empty when absent). -/
def bucketOf (st : EmitronState) (k : Key) : Bucket :=
  (mapGet st.events k).getD Bucket.empty

def persistList (st : EmitronState) (k : Key) : List HId :=
  (bucketOf st k).handlers

def onceList (st : EmitronState) (k : Key) : List HId :=
  (bucketOf st k).onceHandlers

/-- `#getEventHandlers`: create the bucket on demand, return it together
with the (possibly extended) state. -/
def getEventHandlers (st : EmitronState) (k : Key) : EmitronState × Bucket :=
  match mapGet st.events k with
  | some b => (st, b)
  | none => ({ st with events := mapSet st.events k Bucket.empty }, Bucket.empty)

/-- In-place mutation of the bucket returned by `#getEventHandlers`. -/
def updateBucket (st : EmitronState) (k : Key) (f : Bucket → Bucket) : EmitronState :=
  let p := getEventHandlers st k
  { p.1 with events := mapSet p.1.events k (f p.2) }

/-- `on`: add to the persistent handler set. -/
def onReg (st : EmitronState) (k : Key) (h : HId) : EmitronState :=
  updateBucket st k (fun b => { b with handlers := osetAdd h b.handlers })

/-- `off`: delete the reference from both sets. -/
def off (st : EmitronState) (k : Key) (h : HId) : EmitronState :=
  updateBucket st k
    (fun b => ⟨osetDelete h b.handlers, osetDelete h b.onceHandlers⟩)

/-- `once`: add to the transient handler set. -/
def once (st : EmitronState) (k : Key) (h : HId) : EmitronState :=
  updateBucket st k (fun b => { b with onceHandlers := osetAdd h b.onceHandlers })

/-- `onAny`. -/
def onAny (st : EmitronState) (h : HId) : EmitronState :=
  { st with wildcardHandlers := osetAdd h st.wildcardHandlers }

/-- `offAny`. -/
def offAny (st : EmitronState) (h : HId) : EmitronState :=
  { st with wildcardHandlers := osetDelete h st.wildcardHandlers }

/-- `listenerCount`: reads the map without creating the bucket. -/
def listenerCount (st : EmitronState) (k : Key) : Nat :=
  match mapGet st.events k with
  | some b => b.handlers.length + b.onceHandlers.length
  | none => 0

/-- `hasListeners`. -/
def hasListeners (st : EmitronState) (k : Key) : Bool :=
  decide (0 < listenerCount st k)

/-- A registry mutation a handler body may perform during its own
invocation (the reentrant calls the claims exercise). -/
inductive RegAction where
  | onAct (k : Key) (h : HId)
  | offAct (k : Key) (h : HId)
  | onceAct (k : Key) (h : HId)
deriving DecidableEq

/-- Runtime behavior of one handler body: the registry mutations it
performs, then an optional thrown error (errors are labelled by Nat). -/
structure HBehavior where
  actions : List RegAction
  throws : Option Nat
deriving DecidableEq

/-- Environment assigning a behavior to every handler reference. -/
abbrev Env := HId → HBehavior

/-- Handlers that neither mutate the registry nor throw. -/
def pureEnv : Env := fun _ => ⟨[], none⟩

def applyAction (st : EmitronState) : RegAction → EmitronState
  | RegAction.onAct k h => onReg st k h
  | RegAction.offAct k h => off st k h
  | RegAction.onceAct k h => once st k h

def applyActions : EmitronState → List RegAction → EmitronState
  | st, [] => st
  | st, a :: rest => applyActions (applyAction st a) rest

/-- One observed handler call: a keyed handler called with a positional
argument list, or a wildcard handler called with `(key, argsArray)`
where the second component records the array contents it received. -/
inductive TraceEntry where
  | keyed (h : HId) (args : List Val)
  | wild (h : HId) (k : Key) (args : List Val)
deriving DecidableEq

/-- Whether a trace entry is an invocation of handler `h`. -/
def mentions (h : HId) : TraceEntry → Bool
  | TraceEntry.keyed g _ => g == h
  | TraceEntry.wild g _ _ => g == h

/-- Sequential invocation of a handler list, stopping at the first
thrown error (the synchronous `for` loop: an exception propagates). -/
def runSeq (env : Env) (mk : HId → TraceEntry) :
    List HId → EmitronState → EmitronState × List TraceEntry × Option Nat
  | [], st => (st, [], none)
  | g :: rest, st =>
    let st1 := applyActions st (env g).actions
    match (env g).throws with
    | some e => (st1, [mk g], some e)
    | none =>
      let r := runSeq env mk rest st1
      (r.1, mk g :: r.2.1, r.2.2)

/-- Invocation of every scheduled unit in queue order, collecting each
unit's settled outcome (`emitAsync` wraps each call in its own deferred,
so a throw never interrupts the other units). -/
def runAll (env : Env) (mk : HId → TraceEntry) :
    List HId → EmitronState → EmitronState × List TraceEntry × List (Option Nat)
  | [], st => (st, [], [])
  | g :: rest, st =>
    let r := runAll env mk rest (applyActions st (env g).actions)
    (r.1, mk g :: r.2.1, (env g).throws :: r.2.2)

structure EmitResult where
  state : EmitronState
  trace : List TraceEntry
  thrown : Option Nat
deriving DecidableEq

/-- Lines 338-341 of `emit` and `emitAsync`: ensure the bucket, snapshot
`[...handlers, ...onceHandlers]`, then clear the transient set before
any handler is invoked. -/
def emitPrepare (st : EmitronState) (k : Key) : List HId × EmitronState :=
  let p := getEventHandlers st k
  (p.2.handlers ++ p.2.onceHandlers,
   updateBucket p.1 k (fun b => { b with onceHandlers := [] }))

/-- The keyed phase of `emit`: the snapshot invoked sequentially, each
handler receiving the spread rest-argument list. -/
def emitKeyedRun (env : Env) (st : EmitronState) (k : Key) (args : List Val) :
    EmitronState × List TraceEntry × Option Nat :=
  runSeq env (fun g => TraceEntry.keyed g args) (emitPrepare st k).1 (emitPrepare st k).2

/-- The wildcard phase of `emit`: after the keyed loop, every wildcard
handler is called with `(type, args)`, `args` being the rest array. -/
def emitWildRun (env : Env) (st : EmitronState) (k : Key) (args : List Val) :
    EmitronState × List TraceEntry × Option Nat :=
  runSeq env (fun g => TraceEntry.wild g k args)
    (emitKeyedRun env st k args).1.wildcardHandlers (emitKeyedRun env st k args).1

/-- `emit`: snapshot and drain, invoke the snapshot sequentially (a throw
propagates and stops the iteration, skipping the wildcard loop), then
invoke every wildcard handler. -/
def emit (env : Env) (st : EmitronState) (k : Key) (args : List Val) : EmitResult :=
  match (emitKeyedRun env st k args).2.2 with
  | some e =>
    ⟨(emitKeyedRun env st k args).1, (emitKeyedRun env st k args).2.1, some e⟩
  | none =>
    ⟨(emitWildRun env st k args).1,
     (emitKeyedRun env st k args).2.1 ++ (emitWildRun env st k args).2.1,
     (emitWildRun env st k args).2.2⟩

structure AsyncResult where
  state : EmitronState
  trace : List TraceEntry
  outcomes : List (Option Nat)
deriving DecidableEq

/-- The keyed units of `emitAsync`, scheduled first and run first. -/
def asyncKeyedRun (env : Env) (st : EmitronState) (k : Key) (args : List Val) :
    EmitronState × List TraceEntry × List (Option Nat) :=
  runAll env (fun g => TraceEntry.keyed g args) (emitPrepare st k).1 (emitPrepare st k).2

/-- The wildcard units of `emitAsync`: the wildcard set is walked
synchronously at scheduling time, and the units run after the keyed
units. -/
def asyncWildRun (env : Env) (st : EmitronState) (k : Key) (args : List Val) :
    EmitronState × List TraceEntry × List (Option Nat) :=
  runAll env (fun g => TraceEntry.wild g k args)
    (emitPrepare st k).2.wildcardHandlers (asyncKeyedRun env st k args).1

/-- `emitAsync`: identical snapshot-and-drain, then every keyed unit and
every wildcard unit is scheduled as its own deferred and all of them
run; the per-unit settled outcomes are collected in scheduling order. -/
def emitAsync (env : Env) (st : EmitronState) (k : Key) (args : List Val) : AsyncResult :=
  ⟨(asyncWildRun env st k args).1,
   (asyncKeyedRun env st k args).2.1 ++ (asyncWildRun env st k args).2.1,
   (asyncKeyedRun env st k args).2.2 ++ (asyncWildRun env st k args).2.2⟩

/-- JS `Promise.all` over settled outcomes: rejects with the first
rejection reason, fulfills only when every unit fulfilled. -/
def promiseAll (outs : List (Option Nat)) : Except Nat Unit :=
  match outs.findSome? id with
  | some e => Except.error e
  | none => Except.ok ()

/-- The settlement of the promise `emitAsync` returns. -/
def emitAsyncResult (env : Env) (st : EmitronState) (k : Key) (args : List Val) :
    Except Nat Unit :=
  promiseAll (emitAsync env st k args).outcomes

/-- The errors of all scheduled units that failed, in scheduling order. -/
def failuresOf (env : Env) (st : EmitronState) (k : Key) (args : List Val) : List Nat :=
  (emitAsync env st k args).outcomes.filterMap id

/-- The async-generator stream adapter `events(key)`: `registered` is the
one transient handler registered for the currently pending pull (the
`this.once(type, handler)` of the generator body), `queued` counts pulls
requested while one is already pending (queued by the generator), and
`delivered` records the values successive pulls resolved with. -/
structure AdapterState where
  em : EmitronState
  key : Key
  registered : Option HId
  queued : Nat
  nextH : HId
  delivered : List Val
deriving DecidableEq

/-- A consumer pull (`iterator.next()`): when no pull is pending the
generator body runs up to its suspend point, registering one fresh
transient handler; otherwise the pull is queued behind the pending one. -/
def apull (a : AdapterState) : AdapterState :=
  match a.registered with
  | none =>
    { a with em := once a.em a.key a.nextH,
             registered := some a.nextH, nextH := a.nextH + 1 }
  | some _ => { a with queued := a.queued + 1 }

/-- An emission on the adapter key.  The real `emit` runs; if the pending
transient handler was invoked (it receives the emitted value), the pull
resolves with that value and the generator, if another pull is queued,
immediately registers a fresh transient handler for it.  With no pull
pending the value reaches no adapter handler and is dropped. -/
def aemit (a : AdapterState) (v : Val) : AdapterState :=
  match a.registered with
  | none => { a with em := (emit pureEnv a.em a.key [v]).state }
  | some h =>
    if TraceEntry.keyed h [v] ∈ (emit pureEnv a.em a.key [v]).trace then
      match a.queued with
      | 0 => { a with em := (emit pureEnv a.em a.key [v]).state, registered := none,
                      delivered := a.delivered ++ [v] }
      | Nat.succ q =>
        { a with em := once (emit pureEnv a.em a.key [v]).state a.key a.nextH,
                 registered := some a.nextH, nextH := a.nextH + 1,
                 queued := q, delivered := a.delivered ++ [v] }
    else { a with em := (emit pureEnv a.em a.key [v]).state }

/-- Adapter state consistency: the adapter key has no persistent
handlers, and its transient set holds exactly the handler of the pending
pull (none when no pull is pending). -/
def AdapterInv (a : AdapterState) : Prop :=
  persistList a.em a.key = []
  ∧ onceList a.em a.key = (match a.registered with | some h => [h] | none => [])

/-- Handler environment for claim C5: handler `h` re-registers `h1` as a
transient handler for `k` during its own invocation; every other handler
is inert. -/
def reRegEnv (h h1 : HId) (k : Key) : Env :=
  fun g => if g = h then ⟨[RegAction.onceAct k h1], none⟩ else ⟨[], none⟩

/-- Keys used by the concrete witnesses (from the reference test suite). -/
def kEv : Key := "simpleEvent"

def kArr : Key := "arrayEvent"

/-- Two keyed handlers that both fail, with distinct errors 0 and 1. -/
def errEnvA : Env :=
  fun g => if g = 0 then ⟨[], some 0⟩ else if g = 1 then ⟨[], some 1⟩ else ⟨[], none⟩

/-- Same, but the second handler fails with error 2 instead. -/
def errEnvB : Env :=
  fun g => if g = 0 then ⟨[], some 0⟩ else if g = 1 then ⟨[], some 2⟩ else ⟨[], none⟩

/-- Environment for the C4 witness: handler 1 throws error 7. -/
def errEnvC : Env :=
  fun g => if g = 1 then ⟨[], some 7⟩ else ⟨[], none⟩

/-- A registry with two persistent handlers 0 and 1 on `kEv`. -/
def twoHandlerState : EmitronState := onReg (onReg emptyState kEv 0) kEv 1

/-- A registry with three persistent handlers 0, 1 and 2 on `kEv`. -/
def threeHandlerState : EmitronState :=
  onReg (onReg (onReg emptyState kEv 0) kEv 1) kEv 2

theorem mem_osetAdd_self (h : HId) (s : List HId) : h ∈ osetAdd h s := by
  unfold osetAdd
  by_cases hm : h ∈ s
  · simp [hm]
  · simp [hm]

theorem mem_osetAdd_of_mem (g h : HId) (s : List HId) (hm : g ∈ s) :
    g ∈ osetAdd h s := by
  unfold osetAdd
  by_cases hh : h ∈ s <;> simp [hh, hm]

theorem osetAdd_of_not_mem (h : HId) (s : List HId) (hm : h ∉ s) :
    osetAdd h s = s ++ [h] := by
  simp [osetAdd, hm]

theorem osetAdd_of_mem (h : HId) (s : List HId) (hm : h ∈ s) :
    osetAdd h s = s := by
  simp [osetAdd, hm]

theorem osetAdd_idem (h : HId) (s : List HId) :
    osetAdd h (osetAdd h s) = osetAdd h s :=
  osetAdd_of_mem h (osetAdd h s) (mem_osetAdd_self h s)

theorem osetDelete_of_not_mem (h : HId) (s : List HId) (hm : h ∉ s) :
    osetDelete h s = s := by
  unfold osetDelete
  rw [List.filter_eq_self]
  intro a ha
  simp only [bne_iff_ne, ne_eq]
  exact fun hc => hm (hc ▸ ha)

theorem osetDelete_osetAdd (h : HId) (s : List HId) :
    osetDelete h (osetAdd h s) = osetDelete h s := by
  unfold osetAdd
  by_cases hm : h ∈ s
  · simp [hm]
  · simp [hm, osetDelete, List.filter_append]

theorem count_osetAdd_self (h : HId) (s : List HId) (hm : h ∉ s) :
    (osetAdd h s).count h = 1 := by
  rw [osetAdd_of_not_mem h s hm]
  simp [List.count_append, List.count_eq_zero.mpr hm]

theorem mapGet_mapSet_self (m : List (Key × Bucket)) (k : Key) (b : Bucket) :
    mapGet (mapSet m k b) k = some b := by
  induction m with
  | nil => simp [mapSet, mapGet]
  | cons p rest ih =>
    obtain ⟨k1, b1⟩ := p
    by_cases hk : k1 = k
    · simp [mapSet, hk, mapGet]
    · simp [mapSet, hk, mapGet, ih]

theorem getEventHandlers_snd (st : EmitronState) (k : Key) :
    (getEventHandlers st k).2 = bucketOf st k := by
  unfold getEventHandlers bucketOf
  cases mapGet st.events k <;> rfl

theorem getEventHandlers_fst_wild (st : EmitronState) (k : Key) :
    (getEventHandlers st k).1.wildcardHandlers = st.wildcardHandlers := by
  unfold getEventHandlers
  cases mapGet st.events k <;> rfl

theorem bucketOf_getEventHandlers_fst (st : EmitronState) (k : Key) :
    bucketOf (getEventHandlers st k).1 k = bucketOf st k := by
  unfold getEventHandlers
  cases hm : mapGet st.events k
  · simp [bucketOf, mapGet_mapSet_self, hm]
  · rfl

theorem updateBucket_bucketOf (st : EmitronState) (k : Key) (f : Bucket → Bucket) :
    bucketOf (updateBucket st k f) k = f (bucketOf st k) := by
  unfold updateBucket
  simp [bucketOf, mapGet_mapSet_self, getEventHandlers_snd]

theorem updateBucket_wild (st : EmitronState) (k : Key) (f : Bucket → Bucket) :
    (updateBucket st k f).wildcardHandlers = st.wildcardHandlers := by
  unfold updateBucket
  simp [getEventHandlers_fst_wild]

theorem persistList_onReg (st : EmitronState) (k : Key) (h : HId) :
    persistList (onReg st k h) k = osetAdd h (persistList st k) := by
  unfold persistList onReg
  rw [updateBucket_bucketOf]

theorem onceList_onReg (st : EmitronState) (k : Key) (h : HId) :
    onceList (onReg st k h) k = onceList st k := by
  unfold onceList onReg
  rw [updateBucket_bucketOf]

theorem persistList_off (st : EmitronState) (k : Key) (h : HId) :
    persistList (off st k h) k = osetDelete h (persistList st k) := by
  unfold persistList off
  rw [updateBucket_bucketOf]

theorem onceList_off (st : EmitronState) (k : Key) (h : HId) :
    onceList (off st k h) k = osetDelete h (onceList st k) := by
  unfold onceList off
  rw [updateBucket_bucketOf]

theorem persistList_once (st : EmitronState) (k : Key) (h : HId) :
    persistList (once st k h) k = persistList st k := by
  unfold persistList once
  rw [updateBucket_bucketOf]

theorem onceList_once (st : EmitronState) (k : Key) (h : HId) :
    onceList (once st k h) k = osetAdd h (onceList st k) := by
  unfold onceList once
  rw [updateBucket_bucketOf]

theorem wild_onReg (st : EmitronState) (k : Key) (h : HId) :
    (onReg st k h).wildcardHandlers = st.wildcardHandlers := by
  unfold onReg
  rw [updateBucket_wild]

theorem wild_off (st : EmitronState) (k : Key) (h : HId) :
    (off st k h).wildcardHandlers = st.wildcardHandlers := by
  unfold off
  rw [updateBucket_wild]

theorem wild_once (st : EmitronState) (k : Key) (h : HId) :
    (once st k h).wildcardHandlers = st.wildcardHandlers := by
  unfold once
  rw [updateBucket_wild]

theorem listenerCount_eq (st : EmitronState) (k : Key) :
    listenerCount st k = (persistList st k).length + (onceList st k).length := by
  unfold listenerCount persistList onceList bucketOf
  cases mapGet st.events k <;> simp [Bucket.empty]

theorem emitPrepare_fst (st : EmitronState) (k : Key) :
    (emitPrepare st k).1 = persistList st k ++ onceList st k := by
  unfold emitPrepare persistList onceList
  simp [getEventHandlers_snd]

theorem emitPrepare_snd_persist (st : EmitronState) (k : Key) :
    persistList (emitPrepare st k).2 k = persistList st k := by
  unfold emitPrepare persistList
  rw [updateBucket_bucketOf, bucketOf_getEventHandlers_fst]

theorem emitPrepare_snd_once (st : EmitronState) (k : Key) :
    onceList (emitPrepare st k).2 k = [] := by
  unfold emitPrepare onceList
  rw [updateBucket_bucketOf]

theorem emitPrepare_snd_wild (st : EmitronState) (k : Key) :
    (emitPrepare st k).2.wildcardHandlers = st.wildcardHandlers := by
  unfold emitPrepare
  rw [updateBucket_wild, getEventHandlers_fst_wild]

theorem applyAction_wild (st : EmitronState) (a : RegAction) :
    (applyAction st a).wildcardHandlers = st.wildcardHandlers := by
  cases a <;> simp [applyAction, wild_onReg, wild_off, wild_once]

theorem applyActions_wild (acts : List RegAction) :
    ∀ st : EmitronState, (applyActions st acts).wildcardHandlers = st.wildcardHandlers := by
  induction acts with
  | nil => intro st; rfl
  | cons a rest ih =>
    intro st
    show (applyActions (applyAction st a) rest).wildcardHandlers = _
    rw [ih, applyAction_wild]

theorem runSeq_wild (env : Env) (mk : HId → TraceEntry) :
    ∀ (hs : List HId) (st : EmitronState),
      (runSeq env mk hs st).1.wildcardHandlers = st.wildcardHandlers := by
  intro hs
  induction hs with
  | nil => intro st; rfl
  | cons g rest ih =>
    intro st
    simp only [runSeq]
    cases (env g).throws
    · simp only []
      exact (ih (applyActions st (env g).actions)).trans
        (applyActions_wild (env g).actions st)
    · simp only []
      exact applyActions_wild (env g).actions st

theorem runSeq_pure (mk : HId → TraceEntry) :
    ∀ (hs : List HId) (st : EmitronState),
      runSeq pureEnv mk hs st = (st, hs.map mk, none) := by
  intro hs
  induction hs with
  | nil => intro st; rfl
  | cons g rest ih =>
    intro st
    simp [runSeq, pureEnv, applyActions, ih]

theorem runSeq_trace_noThrow (env : Env) (mk : HId → TraceEntry)
    (hnt : ∀ g, (env g).throws = none) :
    ∀ (hs : List HId) (st : EmitronState),
      (runSeq env mk hs st).2.1 = hs.map mk := by
  intro hs
  induction hs with
  | nil => intro st; rfl
  | cons g rest ih =>
    intro st
    simp [runSeq, hnt g, ih]

theorem runSeq_err_noThrow (env : Env) (mk : HId → TraceEntry)
    (hnt : ∀ g, (env g).throws = none) :
    ∀ (hs : List HId) (st : EmitronState),
      (runSeq env mk hs st).2.2 = none := by
  intro hs
  induction hs with
  | nil => intro st; rfl
  | cons g rest ih =>
    intro st
    simp [runSeq, hnt g, ih]

theorem runAll_trace (env : Env) (mk : HId → TraceEntry) :
    ∀ (hs : List HId) (st : EmitronState),
      (runAll env mk hs st).2.1 = hs.map mk := by
  intro hs
  induction hs with
  | nil => intro st; rfl
  | cons g rest ih =>
    intro st
    simp [runAll, ih]

theorem runAll_outcomes (env : Env) (mk : HId → TraceEntry) :
    ∀ (hs : List HId) (st : EmitronState),
      (runAll env mk hs st).2.2 = hs.map (fun g => (env g).throws) := by
  intro hs
  induction hs with
  | nil => intro st; rfl
  | cons g rest ih =>
    intro st
    simp [runAll, ih]

theorem emit_pure_char (st : EmitronState) (k : Key) (args : List Val) :
    emit pureEnv st k args
      = ⟨(emitPrepare st k).2,
         (persistList st k ++ onceList st k).map (fun g => TraceEntry.keyed g args)
           ++ st.wildcardHandlers.map (fun g => TraceEntry.wild g k args),
         none⟩ := by
  have hk : emitKeyedRun pureEnv st k args
      = ((emitPrepare st k).2,
         (persistList st k ++ onceList st k).map (fun g => TraceEntry.keyed g args),
         none) := by
    unfold emitKeyedRun
    rw [runSeq_pure, emitPrepare_fst]
  unfold emit emitWildRun
  rw [hk]
  simp [runSeq_pure, emitPrepare_snd_wild]

theorem emit_noThrow_trace (env : Env) (st : EmitronState) (k : Key) (args : List Val)
    (hnt : ∀ g, (env g).throws = none) :
    (emit env st k args).trace
      = (persistList st k ++ onceList st k).map (fun g => TraceEntry.keyed g args)
        ++ st.wildcardHandlers.map (fun g => TraceEntry.wild g k args)
    ∧ (emit env st k args).thrown = none := by
  have hkerr : (emitKeyedRun env st k args).2.2 = none :=
    runSeq_err_noThrow env _ hnt _ _
  unfold emit
  rw [hkerr]
  constructor
  · show (emitKeyedRun env st k args).2.1 ++ (emitWildRun env st k args).2.1 = _
    unfold emitWildRun emitKeyedRun
    rw [runSeq_trace_noThrow env _ hnt, runSeq_trace_noThrow env _ hnt,
        emitPrepare_fst, runSeq_wild, emitPrepare_snd_wild]
  · show (emitWildRun env st k args).2.2 = none
    unfold emitWildRun
    exact runSeq_err_noThrow env _ hnt _ _

theorem emit_noThrow_keyed_mem (env : Env) (st : EmitronState) (k : Key)
    (args : List Val) (g : HId) (hnt : ∀ x, (env x).throws = none)
    (hg : g ∈ persistList st k ++ onceList st k) :
    TraceEntry.keyed g args ∈ (emit env st k args).trace := by
  rw [(emit_noThrow_trace env st k args hnt).1]
  exact List.mem_append_left _ (List.mem_map_of_mem _ hg)

theorem countP_mentions_maps (hs wcs : List HId) (h : HId) (k : Key)
    (args args2 : List Val) :
    ((hs.map fun g => TraceEntry.keyed g args)
      ++ wcs.map fun g => TraceEntry.wild g k args2).countP (mentions h)
    = hs.count h + wcs.count h := by
  rw [List.countP_append, List.countP_map, List.countP_map]
  have hk : (mentions h ∘ fun g => TraceEntry.keyed g args) = fun x => x == h := by
    funext g; rfl
  have hw : (mentions h ∘ fun g => TraceEntry.wild g k args2) = fun x => x == h := by
    funext g; rfl
  rw [hk, hw]
  simp [List.count]

theorem runSeq_stops (env : Env) (mk : HId → TraceEntry) (e : Nat) :
    ∀ (i : Nat) (hs : List HId) (st : EmitronState) (h : HId),
      hs.get? i = some h → (env h).throws = some e →
      (∀ g ∈ hs.take i, (env g).throws = none) →
      (runSeq env mk hs st).2.1 = (hs.take (i + 1)).map mk
      ∧ (runSeq env mk hs st).2.2 = some e := by
  intro i
  induction i with
  | zero =>
    intro hs st h hget hthrow _
    cases hs with
    | nil => simp at hget
    | cons g rest =>
      simp only [List.get?_cons_zero, Option.some.injEq] at hget
      subst hget
      simp [runSeq, hthrow]
  | succ i ih =>
    intro hs st h hget hthrow hprev
    cases hs with
    | nil => simp at hget
    | cons g rest =>
      simp only [List.get?_cons_succ] at hget
      have hg : (env g).throws = none := hprev g (by simp [List.take_succ_cons])
      have hrest := ih rest (applyActions st (env g).actions) h hget hthrow
        (fun x hx => hprev x (by simp [List.take_succ_cons, hx]))
      simp only [runSeq, hg]
      constructor
      · show mk g :: (runSeq env mk rest _).2.1 = _
        rw [hrest.1, List.take_succ_cons, List.map_cons]
      · exact hrest.2

theorem findSome_id_filterMap (l : List (Option Nat)) :
    l.findSome? id = (l.filterMap id).head? := by
  induction l with
  | nil => rfl
  | cons o rest ih =>
    cases o with
    | none => exact ih
    | some e => rfl

theorem onceList_mem_runSeq_mono (h h1 : HId) (k : Key) (mk : HId → TraceEntry) :
    ∀ (hs : List HId) (st : EmitronState), h1 ∈ onceList st k →
      h1 ∈ onceList (runSeq (reRegEnv h h1 k) mk hs st).1 k := by
  intro hs
  induction hs with
  | nil => intro st hm; exact hm
  | cons g rest ih =>
    intro st hm
    have hth : ((reRegEnv h h1 k) g).throws = none := by
      unfold reRegEnv
      by_cases hg : g = h <;> simp [hg]
    simp only [runSeq, hth]
    apply ih
    unfold reRegEnv
    by_cases hg : g = h
    · simp only [hg, if_pos rfl]
      show h1 ∈ onceList (applyActions st [RegAction.onceAct k h1]) k
      show h1 ∈ onceList (once st k h1) k
      rw [onceList_once]
      exact mem_osetAdd_of_mem h1 h1 _ hm
    · simp only [if_neg hg]
      exact hm

theorem onceList_mem_runSeq_reReg (h h1 : HId) (k : Key) (mk : HId → TraceEntry) :
    ∀ (hs : List HId) (st : EmitronState), h ∈ hs →
      h1 ∈ onceList (runSeq (reRegEnv h h1 k) mk hs st).1 k := by
  intro hs
  induction hs with
  | nil => intro st hm; simp at hm
  | cons g rest ih =>
    intro st hm
    have hth : ((reRegEnv h h1 k) g).throws = none := by
      unfold reRegEnv
      by_cases hg : g = h <;> simp [hg]
    simp only [runSeq, hth]
    by_cases hg : g = h
    · apply onceList_mem_runSeq_mono
      unfold reRegEnv
      simp only [hg, if_pos rfl]
      show h1 ∈ onceList (applyActions st [RegAction.onceAct k h1]) k
      show h1 ∈ onceList (once st k h1) k
      rw [onceList_once]
      exact mem_osetAdd_self h1 _
    · have hmr : h ∈ rest := by
        rcases List.mem_cons.mp hm with hcase | hcase
        · exact absurd hcase.symm hg
        · exact hcase
      exact ih _ hmr

theorem reRegEnv_noThrow (h h1 : HId) (k : Key) :
    ∀ g, ((reRegEnv h h1 k) g).throws = none := by
  intro g
  unfold reRegEnv
  by_cases hg : g = h <;> simp [hg]

theorem emit_reReg_mem (h h1 : HId) (k : Key) (st : EmitronState) (args : List Val)
    (hh : h ∈ persistList st k ++ onceList st k) :
    h1 ∈ onceList (emit (reRegEnv h h1 k) st k args).state k := by
  have hkerr : (emitKeyedRun (reRegEnv h h1 k) st k args).2.2 = none := by
    unfold emitKeyedRun
    exact runSeq_err_noThrow _ _ (reRegEnv_noThrow h h1 k) _ _
  unfold emit
  rw [hkerr]
  show h1 ∈ onceList (emitWildRun (reRegEnv h h1 k) st k args).1 k
  unfold emitWildRun
  apply onceList_mem_runSeq_mono
  unfold emitKeyedRun
  apply onceList_mem_runSeq_reReg
  rw [emitPrepare_fst]
  exact hh

theorem emit_pure_trace (st : EmitronState) (k : Key) (args : List Val) :
    (emit pureEnv st k args).trace
      = (persistList st k ++ onceList st k).map (fun g => TraceEntry.keyed g args)
        ++ st.wildcardHandlers.map (fun g => TraceEntry.wild g k args) := by
  rw [emit_pure_char]

theorem emit_pure_state (st : EmitronState) (k : Key) (args : List Val) :
    (emit pureEnv st k args).state = (emitPrepare st k).2 := by
  rw [emit_pure_char]

theorem emit_pure_state_persist (st : EmitronState) (k : Key) (args : List Val) :
    persistList (emit pureEnv st k args).state k = persistList st k := by
  rw [emit_pure_state, emitPrepare_snd_persist]

theorem emit_pure_state_once (st : EmitronState) (k : Key) (args : List Val) :
    onceList (emit pureEnv st k args).state k = [] := by
  rw [emit_pure_state, emitPrepare_snd_once]

theorem emit_pure_state_wild (st : EmitronState) (k : Key) (args : List Val) :
    (emit pureEnv st k args).state.wildcardHandlers = st.wildcardHandlers := by
  rw [emit_pure_state, emitPrepare_snd_wild]

theorem pureEnv_noThrow : ∀ g, (pureEnv g).throws = none := fun _ => rfl

/-- The handler count an emission under inert handlers registers in its
trace: its multiplicity in the keyed snapshot plus its multiplicity in
the wildcard set. -/
theorem emit_pure_countP (st : EmitronState) (k : Key) (args : List Val) (h : HId) :
    (emit pureEnv st k args).trace.countP (mentions h)
      = (persistList st k).count h + (onceList st k).count h
        + st.wildcardHandlers.count h := by
  rw [emit_pure_trace, countP_mentions_maps, List.count_append]

/-- Claim C8: starting from a registry with no handlers for `k`, after
`on(k, h)` followed by `off(k, h)`, `hasListeners(k)` is false and a
subsequent `emit(k, ...)` does not invoke `h` at all. -/
theorem C8_on_off_cancels (st : EmitronState) (k : Key) (h : HId) (args : List Val)
    (h0 : listenerCount st k = 0) (hw : h ∉ st.wildcardHandlers) :
    hasListeners (off (onReg st k h) k h) k = false
    ∧ (emit pureEnv (off (onReg st k h) k h) k args).trace.countP (mentions h) = 0 := by
  rw [listenerCount_eq] at h0
  have hP : persistList st k = [] := List.length_eq_zero.mp (by omega)
  have hO : onceList st k = [] := List.length_eq_zero.mp (by omega)
  have hP2 : persistList (off (onReg st k h) k h) k = [] := by
    rw [persistList_off, persistList_onReg, osetDelete_osetAdd, hP]
    rfl
  have hO2 : onceList (off (onReg st k h) k h) k = [] := by
    rw [onceList_off, onceList_onReg, hO]
    rfl
  have hW2 : (off (onReg st k h) k h).wildcardHandlers = st.wildcardHandlers := by
    rw [wild_off, wild_onReg]
  constructor
  · unfold hasListeners
    rw [listenerCount_eq, hP2, hO2]
    rfl
  · rw [emit_pure_countP, hP2, hO2, hW2]
    simp [List.count_eq_zero.mpr hw]

/-- Claim C8 witness at handler 0 on the key of the reference tests. -/
theorem C8_witness :
    hasListeners (off (onReg emptyState kEv 0) kEv 0) kEv = false
    ∧ (emit pureEnv (off (onReg emptyState kEv 0) kEv 0) kEv
        [Val.prim ("test")]).trace.countP (mentions 0) = 0 :=
  C8_on_off_cancels emptyState kEv 0 [Val.prim ("test")] (by decide) (by decide)

/-- Claim C9: registering the same handler reference twice with `on` is
idempotent — the listener count after the second registration equals the
count after the first, and one emission invokes the handler exactly
once, because the storage is a reference-keyed Set. -/
theorem C9_on_idempotent (st : EmitronState) (k : Key) (h : HId) (args : List Val)
    (hp : h ∉ persistList st k) (ho : h ∉ onceList st k)
    (hw : h ∉ st.wildcardHandlers) :
    listenerCount (onReg (onReg st k h) k h) k = listenerCount (onReg st k h) k
    ∧ (emit pureEnv (onReg (onReg st k h) k h) k args).trace.countP (mentions h) = 1 := by
  have hPP : persistList (onReg (onReg st k h) k h) k = osetAdd h (persistList st k) := by
    rw [persistList_onReg, persistList_onReg, osetAdd_idem]
  constructor
  · rw [listenerCount_eq, listenerCount_eq, hPP, persistList_onReg,
        onceList_onReg, onceList_onReg]
  · rw [emit_pure_countP, hPP, onceList_onReg, onceList_onReg, wild_onReg, wild_onReg,
        count_osetAdd_self h _ hp, List.count_eq_zero.mpr ho, List.count_eq_zero.mpr hw]

/-- Claim C9 witness at handler 0. -/
theorem C9_witness :
    listenerCount (onReg (onReg emptyState kEv 0) kEv 0) kEv
        = listenerCount (onReg emptyState kEv 0) kEv
    ∧ (emit pureEnv (onReg (onReg emptyState kEv 0) kEv 0) kEv
        [Val.prim ("test")]).trace.countP (mentions 0) = 1 :=
  C9_on_idempotent emptyState kEv 0 [Val.prim ("test")] (by decide) (by decide) (by decide)

/-- Claim C6: a handler registered with `once(k, h)` is invoked exactly
once by the first subsequent emission on `k`, is fully unregistered
afterwards so the next emission does not invoke it, and if removed with
`off(k, h)` before any emission it is never invoked. -/
theorem C6_once_fires_exactly_once (st : EmitronState) (k : Key) (h : HId)
    (args args2 : List Val) (hp : h ∉ persistList st k) (ho : h ∉ onceList st k)
    (hw : h ∉ st.wildcardHandlers) :
    (emit pureEnv (once st k h) k args).trace.countP (mentions h) = 1
    ∧ (emit pureEnv (emit pureEnv (once st k h) k args).state k args2).trace.countP
        (mentions h) = 0
    ∧ (emit pureEnv (off (once st k h) k h) k args).trace.countP (mentions h) = 0 := by
  refine ⟨?_, ?_, ?_⟩
  · rw [emit_pure_countP, persistList_once, onceList_once, wild_once,
        count_osetAdd_self h _ ho, List.count_eq_zero.mpr hp, List.count_eq_zero.mpr hw]
  · rw [emit_pure_countP, emit_pure_state_once, emit_pure_state_persist,
        emit_pure_state_wild, persistList_once, wild_once,
        List.count_eq_zero.mpr hp, List.count_eq_zero.mpr hw]
    rfl
  · rw [emit_pure_countP, persistList_off, persistList_once, onceList_off, onceList_once,
        osetDelete_osetAdd, wild_off, wild_once,
        osetDelete_of_not_mem h _ hp, osetDelete_of_not_mem h _ ho,
        List.count_eq_zero.mpr hp, List.count_eq_zero.mpr ho, List.count_eq_zero.mpr hw]

/-- Claim C6 witness at handler 0. -/
theorem C6_witness :
    (emit pureEnv (once emptyState kEv 0) kEv [Val.prim ("first")]).trace.countP
        (mentions 0) = 1
    ∧ (emit pureEnv (emit pureEnv (once emptyState kEv 0) kEv [Val.prim ("first")]).state
        kEv [Val.prim ("second")]).trace.countP (mentions 0) = 0
    ∧ (emit pureEnv (off (once emptyState kEv 0) kEv 0) kEv
        [Val.prim ("first")]).trace.countP (mentions 0) = 0 :=
  C6_once_fires_exactly_once emptyState kEv 0 [Val.prim ("first")] [Val.prim ("second")]
    (by decide) (by decide) (by decide)

/-- Claim C10: a handler registered both with `on` and with `once` for the
same key is invoked twice by a single emission (once from the persistent
snapshot, once from the transient snapshot); afterwards it remains
registered only as persistent, so the next emission invokes it exactly
once. -/
theorem C10_on_and_once_double (st : EmitronState) (k : Key) (h : HId)
    (args args2 : List Val) (hp : h ∉ persistList st k) (ho : h ∉ onceList st k)
    (hw : h ∉ st.wildcardHandlers) :
    (emit pureEnv (once (onReg st k h) k h) k args).trace.countP (mentions h) = 2
    ∧ h ∈ persistList (emit pureEnv (once (onReg st k h) k h) k args).state k
    ∧ h ∉ onceList (emit pureEnv (once (onReg st k h) k h) k args).state k
    ∧ (emit pureEnv (emit pureEnv (once (onReg st k h) k h) k args).state k
        args2).trace.countP (mentions h) = 1 := by
  have hper : persistList (once (onReg st k h) k h) k = osetAdd h (persistList st k) := by
    rw [persistList_once, persistList_onReg]
  have honc : onceList (once (onReg st k h) k h) k = osetAdd h (onceList st k) := by
    rw [onceList_once, onceList_onReg]
  have hwld : (once (onReg st k h) k h).wildcardHandlers = st.wildcardHandlers := by
    rw [wild_once, wild_onReg]
  refine ⟨?_, ?_, ?_, ?_⟩
  · rw [emit_pure_countP, hper, honc, hwld,
        count_osetAdd_self h _ hp, count_osetAdd_self h _ ho, List.count_eq_zero.mpr hw]
  · rw [emit_pure_state_persist, hper]
    exact mem_osetAdd_self h _
  · rw [emit_pure_state_once]
    simp
  · rw [emit_pure_countP, emit_pure_state_once, emit_pure_state_persist,
        emit_pure_state_wild, hper, hwld,
        count_osetAdd_self h _ hp, List.count_eq_zero.mpr hw]
    rfl

/-- Claim C10 witness at handler 0. -/
theorem C10_witness :
    (emit pureEnv (once (onReg emptyState kEv 0) kEv 0) kEv
        [Val.prim ("a")]).trace.countP (mentions 0) = 2 :=
  (C10_on_and_once_double emptyState kEv 0 [Val.prim ("a")] [Val.prim ("b")]
    (by decide) (by decide) (by decide)).1

/-- Claim C3: emitting a sequence payload delivers the array itself as
the single positional argument of every keyed handler — the registered
handler is called with exactly the one-element argument list holding the
array, and every keyed invocation of that emission has that same
single-argument form (the sequence is not spread). -/
theorem C3_sequence_single_argument (st : EmitronState) (k : Key) (xs : List String)
    (h : HId) (hh : h ∈ persistList st k) :
    TraceEntry.keyed h [Val.arr xs] ∈ (emit pureEnv st k [Val.arr xs]).trace
    ∧ ∀ g as, TraceEntry.keyed g as ∈ (emit pureEnv st k [Val.arr xs]).trace →
        as = [Val.arr xs] := by
  constructor
  · exact emit_noThrow_keyed_mem pureEnv st k [Val.arr xs] h pureEnv_noThrow
      (List.mem_append_left _ hh)
  · intro g as hmem
    rw [emit_pure_trace] at hmem
    rcases List.mem_append.mp hmem with hcase | hcase
    · rcases List.mem_map.mp hcase with ⟨x, _, hx⟩
      cases hx
      rfl
    · rcases List.mem_map.mp hcase with ⟨x, _, hx⟩
      cases hx

/-- Claim C3 witness: the handler registered for the array-typed key
receives `["item1", "item2"]` as one argument. -/
theorem C3_witness :
    TraceEntry.keyed 0 [Val.arr ["item1", "item2"]]
      ∈ (emit pureEnv (onReg emptyState kArr 0) kArr [Val.arr ["item1", "item2"]]).trace :=
  (C3_sequence_single_argument (onReg emptyState kArr 0) kArr ["item1", "item2"] 0
    (by decide)).1

/-- Claim C4: when the handler at position `i` of the snapshot throws and
the handlers before it do not, the exception surfaces as the thrown
error of `emit`, and the trace is exactly the snapshot prefix up to and
including the throwing handler — every later snapshotted handler and
every wildcard handler goes uninvoked in that emission. -/
theorem C4_throw_interrupts (env : Env) (st : EmitronState) (k : Key)
    (args : List Val) (i : Nat) (h : HId) (e : Nat)
    (hi : (emitPrepare st k).1.get? i = some h)
    (he : (env h).throws = some e)
    (hprev : ∀ g ∈ (emitPrepare st k).1.take i, (env g).throws = none) :
    (emit env st k args).thrown = some e
    ∧ (emit env st k args).trace
        = ((emitPrepare st k).1.take (i + 1)).map (fun g => TraceEntry.keyed g args) := by
  have hr := runSeq_stops env (fun g => TraceEntry.keyed g args) e i
    (emitPrepare st k).1 (emitPrepare st k).2 h hi he hprev
  have hkerr : (emitKeyedRun env st k args).2.2 = some e := hr.2
  have hktr : (emitKeyedRun env st k args).2.1
      = ((emitPrepare st k).1.take (i + 1)).map (fun g => TraceEntry.keyed g args) := hr.1
  unfold emit
  rw [hkerr]
  exact ⟨rfl, hktr⟩

/-- Claim C4 witness: among three handlers, handler 1 throws error 7;
only handlers 0 and 1 appear in the trace and no wildcard entry does. -/
theorem C4_witness :
    (emit errEnvC threeHandlerState kEv [Val.prim ("t")]).thrown = some 7
    ∧ (emit errEnvC threeHandlerState kEv [Val.prim ("t")]).trace
        = ((emitPrepare threeHandlerState kEv).1.take (1 + 1)).map
            (fun g => TraceEntry.keyed g [Val.prim ("t")]) :=
  C4_throw_interrupts errEnvC threeHandlerState kEv [Val.prim ("t")] 1 1 7
    (by decide) (by decide) (by decide)

/-- Claim C5: the transient collection is drained between the snapshot
and the invocations — the snapshot still holds the old transient
handlers while the state handlers run in has an empty transient set for
the key; consequently a snapshotted handler that re-registers `h1` via
`once(k, h1)` during its own invocation leaves `h1` registered as
transient when `emit` returns, `h1` is not invoked during that emission,
and `h1` is invoked by the next emission on `k`. -/
theorem C5_drain_before_invocation (st : EmitronState) (k : Key) (h h1 : HId)
    (args args2 : List Val) (hh : h ∈ persistList st k)
    (h1p : h1 ∉ persistList st k) (h1o : h1 ∉ onceList st k)
    (h1w : h1 ∉ st.wildcardHandlers) :
    (emitPrepare st k).1 = persistList st k ++ onceList st k
    ∧ onceList (emitPrepare st k).2 k = []
    ∧ h1 ∈ onceList (emit (reRegEnv h h1 k) st k args).state k
    ∧ (emit (reRegEnv h h1 k) st k args).trace.countP (mentions h1) = 0
    ∧ TraceEntry.keyed h1 args2 ∈
        (emit (reRegEnv h h1 k) (emit (reRegEnv h h1 k) st k args).state k args2).trace := by
  refine ⟨emitPrepare_fst st k, emitPrepare_snd_once st k, ?_, ?_, ?_⟩
  · exact emit_reReg_mem h h1 k st args (List.mem_append_left _ hh)
  · rw [(emit_noThrow_trace (reRegEnv h h1 k) st k args (reRegEnv_noThrow h h1 k)).1,
        countP_mentions_maps, List.count_append,
        List.count_eq_zero.mpr h1p, List.count_eq_zero.mpr h1o,
        List.count_eq_zero.mpr h1w]
  · apply emit_noThrow_keyed_mem _ _ _ _ _ (reRegEnv_noThrow h h1 k)
    exact List.mem_append_right _
      (emit_reReg_mem h h1 k st args (List.mem_append_left _ hh))

/-- Claim C5 witness: handler 0 re-registers handler 1 via `once` during
the first emission; handler 1 is registered transient afterwards. -/
theorem C5_witness :
    1 ∈ onceList (emit (reRegEnv 0 1 kEv) (onReg emptyState kEv 0) kEv
        [Val.prim ("a")]).state kEv :=
  (C5_drain_before_invocation (onReg emptyState kEv 0) kEv 0 1
    [Val.prim ("a")] [Val.prim ("b")] (by decide) (by decide) (by decide) (by decide)).2.2.1

/-- Claim C1 counterexample: with handlers 0 and 1 both failing, the
rejection of `emitAsync` (`Promise.all`) is exactly the first failure,
and two emissions whose failure sets differ ([0, 1] against [0, 2])
settle identically — so the rejection cannot represent all failures,
contrary to the claimed aggregate error condition. -/
theorem C1_counterexample_first_failure_only :
    emitAsyncResult errEnvA twoHandlerState kEv [Val.prim ("x")] = Except.error 0
    ∧ failuresOf errEnvA twoHandlerState kEv [Val.prim ("x")] = [0, 1]
    ∧ emitAsyncResult errEnvA twoHandlerState kEv [Val.prim ("x")]
        = emitAsyncResult errEnvB twoHandlerState kEv [Val.prim ("x")]
    ∧ failuresOf errEnvA twoHandlerState kEv [Val.prim ("x")]
        ≠ failuresOf errEnvB twoHandlerState kEv [Val.prim ("x")] :=
  ⟨rfl, by decide, rfl, by decide⟩

/-- Claim C1 amended: every scheduled unit — each snapshotted keyed
handler and each wildcard handler — is invoked and settles regardless of
other failures (no cancellation), but the returned promise fulfills only
when no unit failed and otherwise rejects with the error of the first
failing unit alone, not an aggregate of all failures. -/
theorem C1_all_units_run_first_failure (env : Env) (st : EmitronState) (k : Key)
    (args : List Val) :
    (emitAsync env st k args).trace
      = (persistList st k ++ onceList st k).map (fun g => TraceEntry.keyed g args)
        ++ st.wildcardHandlers.map (fun g => TraceEntry.wild g k args)
    ∧ (emitAsync env st k args).outcomes
      = (persistList st k ++ onceList st k).map (fun g => (env g).throws)
        ++ st.wildcardHandlers.map (fun g => (env g).throws)
    ∧ (failuresOf env st k args = [] → emitAsyncResult env st k args = Except.ok ())
    ∧ (∀ e fs, failuresOf env st k args = e :: fs →
        emitAsyncResult env st k args = Except.error e) := by
  have hres : emitAsyncResult env st k args
      = (match (failuresOf env st k args).head? with
         | some e => Except.error e
         | none => Except.ok ()) := by
    unfold emitAsyncResult promiseAll failuresOf
    rw [findSome_id_filterMap]
  refine ⟨?_, ?_, ?_, ?_⟩
  · show (asyncKeyedRun env st k args).2.1 ++ (asyncWildRun env st k args).2.1 = _
    unfold asyncKeyedRun asyncWildRun
    rw [runAll_trace, runAll_trace, emitPrepare_fst, emitPrepare_snd_wild]
  · show (asyncKeyedRun env st k args).2.2 ++ (asyncWildRun env st k args).2.2 = _
    unfold asyncKeyedRun asyncWildRun
    rw [runAll_outcomes, runAll_outcomes, emitPrepare_fst, emitPrepare_snd_wild]
  · intro hnil
    rw [hres, hnil]
    rfl
  · intro e fs hcons
    rw [hres, hcons]
    rfl

/-- Claim C1 amended witness: with both handlers of `twoHandlerState`
failing, the dispatch still settles rejected with the first error. -/
theorem C1_amended_witness :
    emitAsyncResult errEnvA twoHandlerState kEv [Val.prim ("y")] = Except.error 0 :=
  (C1_all_units_run_first_failure errEnvA twoHandlerState kEv
    [Val.prim ("y")]).2.2.2 0 [1] (by decide)

/-- Claim C2 evaluated at the failing input: with wildcard handler 0
registered, emitting the sequence payload `["item1", "item2"]` on the
sequence-typed key calls the wildcard with the one-element rest array
that wraps the sequence, which differs from the unwrapped sequence the
claim (and the declared `WildcardHandler` type) requires as the second
argument. -/
theorem C2_wildcard_gets_wrapped_sequence :
    (emit pureEnv (onAny emptyState 0) kArr [Val.arr ["item1", "item2"]]).trace
      = [TraceEntry.wild 0 kArr [Val.arr ["item1", "item2"]]]
    ∧ ([Val.arr ["item1", "item2"]] : List Val)
        ≠ [Val.prim ("item1"), Val.prim ("item2")] :=
  ⟨rfl, by decide⟩

/-- Claim C7: for any adapter state satisfying the adapter invariant,
the key holds at most one outstanding transient registration; an
emission while a pull is pending resolves that pull with exactly the
emitted value; an emission with no pull pending leaves the delivered
values unchanged (the value is dropped, never buffered for a later
pull — every step extends the delivered list by at most the value being
emitted right then); and both adapter operations preserve the
invariant. -/
theorem C7_stream_adapter (a : AdapterState) (hInv : AdapterInv a) :
    (onceList a.em a.key).length ≤ 1
    ∧ (∀ h v, a.registered = some h → (aemit a v).delivered = a.delivered ++ [v])
    ∧ (∀ v, a.registered = none → (aemit a v).delivered = a.delivered)
    ∧ (∀ v, (aemit a v).delivered = a.delivered
          ∨ (aemit a v).delivered = a.delivered ++ [v])
    ∧ (∀ v, AdapterInv (aemit a v))
    ∧ AdapterInv (apull a) := by
  obtain ⟨hp, ho⟩ := hInv
  have hmem : ∀ h v, a.registered = some h →
      TraceEntry.keyed h [v] ∈ (emit pureEnv a.em a.key [v]).trace := by
    intro h v hreg
    rw [hreg] at ho
    rw [emit_pure_trace, hp, ho]
    simp
  refine ⟨?_, ?_, ?_, ?_, ?_, ?_⟩
  · cases hreg : a.registered <;> rw [hreg] at ho <;> simp [ho]
  · intro h v hreg
    simp only [aemit, hreg]
    rw [if_pos (hmem h v hreg)]
    cases a.queued <;> rfl
  · intro v hreg
    simp only [aemit, hreg]
  · intro v
    cases hreg : a.registered with
    | none =>
      left
      simp only [aemit, hreg]
    | some h =>
      right
      simp only [aemit, hreg]
      rw [if_pos (hmem h v hreg)]
      cases a.queued <;> rfl
  · intro v
    cases hreg : a.registered with
    | none =>
      simp only [aemit, hreg]
      constructor
      · show persistList (emit pureEnv a.em a.key [v]).state a.key = []
        rw [emit_pure_state_persist, hp]
      · show onceList (emit pureEnv a.em a.key [v]).state a.key = []
        rw [emit_pure_state_once]
    | some h =>
      simp only [aemit, hreg]
      rw [if_pos (hmem h v hreg)]
      cases a.queued with
      | zero =>
        constructor
        · show persistList (emit pureEnv a.em a.key [v]).state a.key = []
          rw [emit_pure_state_persist, hp]
        · show onceList (emit pureEnv a.em a.key [v]).state a.key = []
          rw [emit_pure_state_once]
      | succ q =>
        constructor
        · show persistList (once (emit pureEnv a.em a.key [v]).state a.key a.nextH)
              a.key = []
          rw [persistList_once, emit_pure_state_persist, hp]
        · show onceList (once (emit pureEnv a.em a.key [v]).state a.key a.nextH)
              a.key = [a.nextH]
          rw [onceList_once, emit_pure_state_once]
          rfl
  · cases hreg : a.registered with
    | none =>
      simp only [apull, hreg]
      constructor
      · show persistList (once a.em a.key a.nextH) a.key = []
        rw [persistList_once, hp]
      · show onceList (once a.em a.key a.nextH) a.key = [a.nextH]
        rw [hreg] at ho
        rw [onceList_once, ho]
        rfl
    | some h =>
      simp only [apull, hreg]
      rw [hreg] at ho
      exact ⟨hp, ho⟩

/-- Claim C7 witness: with one pending pull registered as transient
handler 5, an emission delivers the emitted value to that pull. -/
theorem C7_witness :
    (aemit ⟨once emptyState kEv 5, kEv, some 5, 0, 6, []⟩ (Val.prim ("t"))).delivered
      = [] ++ [Val.prim ("t")] :=
  (C7_stream_adapter ⟨once emptyState kEv 5, kEv, some 5, 0, 6, []⟩
    ⟨rfl, rfl⟩).2.1 5 (Val.prim ("t")) rfl

end Emitron
